import Mathlib

/-!
Shallow embedding of the price-window charging-decision engine of
`smart_energy_controller.py` (class `SmartEnergyController`), the core
selected by the specification.  Python floats are modelled as exact
rationals (`ℚ`), timestamps as rationals measured in hours (so
`timedelta(hours=1)` is `+ 1`), Python `int()` as truncation toward zero,
and `None`-returning functions as `Option`-valued functions.
-/

namespace SmaByd

/-- One Tibber price entry `{'startsAt': ..., 'total': ...}`; `startsAt`
is a timestamp in hours, `total` the price. -/
structure PricePoint where
  startsAt : ℚ
  total : ℚ
deriving DecidableEq, Inhabited

/-- The battery snapshot (`BatteryStatus` dataclass).  Only
`state_of_charge` is consulted by the decision logic; the other fields
(power, mode, temperature, grid/house/solar power) are logged but never
branch the decision, so they are omitted from the embedding. -/
structure BatteryStatus where
  state_of_charge : ℚ
deriving DecidableEq, Inhabited

/-- Battery operating modes used by `optimize_charging` (register values
803, 802, 802 in the source `BatteryMode` enum). -/
inductive BatteryMode where
  | NORMAL
  | PAUSE
  | FAST_CHARGE
deriving DecidableEq, Inhabited

/-- The decision emitted by one `set_battery_mode(mode, power)` call. -/
structure Decision where
  mode : BatteryMode
  power : ℤ
deriving DecidableEq, Inhabited

/-- Configuration constant `self.min_charge_level = 20`. -/
def min_charge_level : ℚ := 20

/-- Configuration constant `self.max_charge_level = 95`. -/
def max_charge_level : ℚ := 95

/-- Configuration constant `self.optimal_charge_level = 80`. -/
def optimal_charge_level : ℚ := 80

/-- Python `int()` applied to a float: truncation toward zero
(floor for non-negative values, ceiling for negative ones), written
with the executable `Rat.floor` so that concrete runs reduce. -/
def pyInt (q : ℚ) : ℤ := if q < 0 then -Rat.floor (-q) else Rat.floor q

/-- Python `min(list)` (0 on the empty list, which the source never
evaluates: every call site guards non-emptiness). -/
def listMin : List ℚ → ℚ
  | [] => 0
  | x :: xs => xs.foldl min x

/-- Python `max(list)`, same convention as `listMin`. -/
def listMax : List ℚ → ℚ
  | [] => 0
  | x :: xs => xs.foldl max x

/-- `base_power = min(5000, max(1500, int(5000 * (1 - soc/100))))`
(lines 722 and 772 of `smart_energy_controller.py`). -/
def basePower (soc : ℚ) : ℤ :=
  min 5000 (max 1500 (pyInt (5000 * (1 - soc / 100))))

/-- The SoC factor of the opportunistic branch (lines 725-728):
`soc_factor = 1.0`, overwritten by `1.0 - (0.8 * (soc - 85) / 10)` when
`soc >= 85`.  Note: the source applies no clamping. -/
def socFactor (soc : ℚ) : ℚ :=
  if 85 ≤ soc then 1 - 0.8 * (soc - 85) / 10 else 1

/-- The power shaping of the opportunistic branch (lines 733-739):
`charging_power = int(base * soc_factor * (0.7 + 0.3 * (1 - pos)))`
then `max(1000, charging_power)`. -/
def shapedPower (base : ℤ) (pos socf : ℚ) : ℤ :=
  max 1000 (pyInt ((base : ℚ) * socf * (0.7 + 0.3 * (1 - pos))))

/-- Full power computation of the opportunistic-immediate branch. -/
def opportunisticPower (soc pos : ℚ) : ℤ :=
  shapedPower (basePower soc) pos (socFactor soc)

/-- The power computation of the best-window branch (lines 771-774):
`power = int(base_power * (0.7 + 0.3 * (1 - relative_position)))`.
Unlike the opportunistic branch it applies no SoC factor and no
1000 W floor. -/
def windowBranchPower (soc rel : ℚ) : ℤ :=
  pyInt ((basePower soc : ℚ) * (0.7 + 0.3 * (1 - rel)))

/-- The future filter of `find_best_charging_window` (lines 465-468,
identical in `tibber_client.py` lines 78-81): keeps the points with
`datetime.fromisoformat(p['startsAt']).astimezone() > now`. -/
def futurePrices (prices : List PricePoint) (now : ℚ) : List PricePoint :=
  prices.filter (fun p => decide (now < p.startsAt))

/-- The candidate window `future_prices[i : i + h]`. -/
def windowSlice (l : List PricePoint) (h i : ℕ) : List PricePoint :=
  (l.drop i).take h

/-- `window_prices = [float(p['total']) for p in window]`. -/
def windowVals (l : List PricePoint) (h i : ℕ) : List ℚ :=
  (windowSlice l h i).map PricePoint.total

/-- `sum(values) / len(values)` (0 on the empty list, never evaluated by
the source on an empty window). -/
def avgList (vals : List ℚ) : ℚ := vals.sum / vals.length

/-- `price_position = (avg_window_price - min_price) / price_range if
price_range > 0 else 0`, with `min_price`/`price_range` taken over the
future subset `l` (line 516). -/
def windowPricePosition (l : List PricePoint) (h i : ℕ) : ℚ :=
  let vals := l.map PricePoint.total
  let range := listMax vals - listMin vals
  if 0 < range then (avgList (windowVals l h i) - listMin vals) / range else 0

/-- `price_stability = (max(window_prices) - min(window_prices)) /
price_range if price_range > 0 else 0` (line 517). -/
def windowPriceStability (l : List PricePoint) (h i : ℕ) : ℚ :=
  let vals := l.map PricePoint.total
  let range := listMax vals - listMin vals
  if 0 < range then
    (listMax (windowVals l h i) - listMin (windowVals l h i)) / range
  else 0

/-- `window_score = 0.6 * price_position + 0.4 * price_stability`
(line 518). -/
def windowScore (l : List PricePoint) (h i : ℕ) : ℚ :=
  0.6 * windowPricePosition l h i + 0.4 * windowPriceStability l h i

/-- One step of the best-window loop: starting from `best_score = inf`,
update `best_window` exactly when `window_score < best_score` (line 529),
so the first index wins ties. -/
def bestStep (g : ℕ → ℚ) (acc : Option (ℕ × ℚ)) (i : ℕ) : Option (ℕ × ℚ) :=
  match acc with
  | none => some (i, g i)
  | some (j, bs) => if g i < bs then some (i, g i) else some (j, bs)

/-- The loop `for i in range(n)` accumulating the best-scoring index. -/
def bestFold (g : ℕ → ℚ) (n : ℕ) : Option (ℕ × ℚ) :=
  (List.range n).foldl (bestStep g) none

/-- The `best_window` dictionary built at lines 531-538. -/
structure ChargingWindow where
  start_time : ℚ
  end_time : ℚ
  average_price : ℚ
  prices : List PricePoint
  score : ℚ
  relative_position : ℚ
deriving DecidableEq, Inhabited

/-- Builds the `best_window` dictionary for index `i`:
`start_time = window[0]['startsAt']`,
`end_time = window[-1]['startsAt'] + timedelta(hours=1)`. -/
def mkWindow (l : List PricePoint) (h i : ℕ) : ChargingWindow :=
  { start_time := (windowSlice l h i).headI.startsAt
    end_time := ((windowSlice l h i).getLastD default).startsAt + 1
    average_price := avgList (windowVals l h i)
    prices := windowSlice l h i
    score := windowScore l h i
    relative_position := windowPricePosition l h i }

/-- `SmartEnergyController.find_best_charging_window(prices, hours_needed)`
(lines 457-556), with the two `datetime.now()` reads merged into the
parameter `now`.  Returns `None` when the list is empty, when fewer than
`hours_needed` future points remain, and otherwise the best-scoring
window of `hours_needed` consecutive future points. -/
def find_best_charging_window (prices : List PricePoint) (hours_needed : ℕ)
    (now : ℚ) : Option ChargingWindow :=
  if prices = [] then none
  else
    let future := futurePrices prices now
    if future.length < hours_needed then none
    else
      match bestFold (windowScore future hours_needed)
          (future.length - hours_needed + 1) with
      | some (i, _) => some (mkWindow future hours_needed i)
      | none => none

/-- `current_price_data = next((p for p in prices if startsAt <= now <=
startsAt + 1h), None)` (lines 694-699). -/
def currentPriceData (prices : List PricePoint) (now : ℚ) : Option PricePoint :=
  prices.find? (fun p => decide (p.startsAt ≤ now ∧ now ≤ p.startsAt + 1))

/-- `current_price_position` (lines 703-709): the position of the current
price within the WHOLE series (min/max over all of `prices`), guarded to
0 on a flat series. -/
def currentPricePosition (prices : List PricePoint) (current : ℚ) : ℚ :=
  let vals := prices.map PricePoint.total
  let range := listMax vals - listMin vals
  if 0 < range then (current - listMin vals) / range else 0

/-- The tail of `optimize_charging` from line 750 on: find the best
window (early `return` without any mode write when none is found), then
the SoC ceiling, the SoC floor, the in-window branch, and the `NORMAL`
fallback (lines 750-785). -/
def windowPhase (status : BatteryStatus) (prices : List PricePoint)
    (now : ℚ) : Option Decision :=
  match find_best_charging_window prices 4 now with
  | none => none
  | some w =>
    if max_charge_level ≤ status.state_of_charge then
      some ⟨BatteryMode.NORMAL, 0⟩
    else if status.state_of_charge ≤ min_charge_level then
      some ⟨BatteryMode.FAST_CHARGE, 1500⟩
    else if w.start_time ≤ now ∧ now ≤ w.end_time ∧ w.score < 0.4 then
      some ⟨BatteryMode.FAST_CHARGE,
        windowBranchPower status.state_of_charge w.relative_position⟩
    else
      some ⟨BatteryMode.NORMAL, 0⟩

/-- `SmartEnergyController.optimize_charging` (lines 664-789) as a pure
function of its inputs.  `battery = none` models a failed
`get_battery_status`; the result is the `set_battery_mode` call emitted
by the cycle, `none` when the cycle returns without writing a mode. -/
def optimize_charging (battery : Option BatteryStatus) (car : Bool)
    (prices : List PricePoint) (now : ℚ) : Option Decision :=
  match battery with
  | none => none
  | some status =>
    if prices = [] then none
    else if car then some ⟨BatteryMode.PAUSE, 0⟩
    else
      match currentPriceData prices now with
      | some cp =>
        let pos := currentPricePosition prices cp.total
        if pos ≤ 0.2 ∧ status.state_of_charge < optimal_charge_level ∧
            car = false then
          some ⟨BatteryMode.FAST_CHARGE,
            opportunisticPower status.state_of_charge pos⟩
        else windowPhase status prices now
      | none => windowPhase status prices now

/-- Variant of `windowPhase` with the in-window charging branch removed,
used to express that that branch is dead code. -/
def windowPhaseNoBranch (status : BatteryStatus) (prices : List PricePoint)
    (now : ℚ) : Option Decision :=
  match find_best_charging_window prices 4 now with
  | none => none
  | some _ =>
    if max_charge_level ≤ status.state_of_charge then
      some ⟨BatteryMode.NORMAL, 0⟩
    else if status.state_of_charge ≤ min_charge_level then
      some ⟨BatteryMode.FAST_CHARGE, 1500⟩
    else
      some ⟨BatteryMode.NORMAL, 0⟩

/-- `optimize_charging` with the in-window charging branch removed. -/
def optimize_charging_noWindowBranch (battery : Option BatteryStatus)
    (car : Bool) (prices : List PricePoint) (now : ℚ) : Option Decision :=
  match battery with
  | none => none
  | some status =>
    if prices = [] then none
    else if car then some ⟨BatteryMode.PAUSE, 0⟩
    else
      match currentPriceData prices now with
      | some cp =>
        let pos := currentPricePosition prices cp.total
        if pos ≤ 0.2 ∧ status.state_of_charge < optimal_charge_level ∧
            car = false then
          some ⟨BatteryMode.FAST_CHARGE,
            opportunisticPower status.state_of_charge pos⟩
        else windowPhaseNoBranch status prices now
      | none => windowPhaseNoBranch status prices now

/-! ### Helper lemmas -/

/-- `Rat.floor` agrees with the ambient `Int.floor`. -/
theorem ratFloor_eq_floor (q : ℚ) : Rat.floor q = ⌊q⌋ := by
  rw [Rat.floor_def', Rat.floor_def]

/-- `pyInt` is the floor for non-negative arguments and the ceiling for
negative ones. -/
theorem pyInt_eq (q : ℚ) : pyInt q = if q < 0 then ⌈q⌉ else ⌊q⌋ := by
  unfold pyInt
  split
  · rw [ratFloor_eq_floor, Int.floor_neg, neg_neg]
  · rw [ratFloor_eq_floor]

/-- The ceiling of a non-positive rational is non-positive. -/
theorem ceil_nonpos' {q : ℚ} (h : q ≤ 0) : ⌈q⌉ ≤ 0 := by
  refine Int.ceil_le.mpr ?_
  rw [Int.cast_zero]
  exact h

/-- Truncation toward zero is monotone. -/
theorem pyInt_mono {x y : ℚ} (h : x ≤ y) : pyInt x ≤ pyInt y := by
  rw [pyInt_eq, pyInt_eq]
  by_cases hx : x < 0 <;> by_cases hy : y < 0 <;> simp [hx, hy]
  · exact Int.ceil_le_ceil h
  · exact le_trans (ceil_nonpos' hx.le) (Int.floor_nonneg.mpr (not_lt.mp hy))
  · exact absurd (lt_of_le_of_lt h hy) hx
  · exact Int.floor_le_floor h

/-- Truncation of a non-positive value is non-positive. -/
theorem pyInt_nonpos {q : ℚ} (h : q ≤ 0) : pyInt q ≤ 0 := by
  rw [pyInt_eq]
  split
  · exact ceil_nonpos' h
  · exact Int.floor_nonpos h

/-- A lower integer bound below a non-negative rational bounds its
truncation. -/
theorem le_pyInt {z : ℤ} {q : ℚ} (hq : 0 ≤ q) (h : (z : ℚ) ≤ q) :
    z ≤ pyInt q := by
  rw [pyInt_eq, if_neg (not_lt.mpr hq)]
  exact Int.le_floor.mpr h

theorem foldl_min_le_init (xs : List ℚ) (a : ℚ) : xs.foldl min a ≤ a := by
  induction xs generalizing a with
  | nil => exact le_refl a
  | cons x xs ih =>
    exact le_trans (ih (min a x)) (min_le_left a x)

theorem foldl_min_le_mem (xs : List ℚ) {x : ℚ} (hx : x ∈ xs) :
    ∀ a, xs.foldl min a ≤ x := by
  induction xs with
  | nil => cases hx
  | cons y ys ih =>
    intro a
    rcases List.mem_cons.mp hx with h | h
    · subst h
      exact le_trans (foldl_min_le_init ys (min a x)) (min_le_right a x)
    · exact ih h (min a y)

theorem init_le_foldl_max (xs : List ℚ) (a : ℚ) : a ≤ xs.foldl max a := by
  induction xs generalizing a with
  | nil => exact le_refl a
  | cons x xs ih =>
    exact le_trans (le_max_left a x) (ih (max a x))

theorem mem_le_foldl_max (xs : List ℚ) {x : ℚ} (hx : x ∈ xs) :
    ∀ a, x ≤ xs.foldl max a := by
  induction xs with
  | nil => cases hx
  | cons y ys ih =>
    intro a
    rcases List.mem_cons.mp hx with h | h
    · subst h
      exact le_trans (le_max_right a x) (init_le_foldl_max ys (max a x))
    · exact ih h (max a y)

/-- `listMin` bounds every member from below. -/
theorem listMin_le_of_mem {l : List ℚ} {x : ℚ} (hx : x ∈ l) :
    listMin l ≤ x := by
  cases l with
  | nil => cases hx
  | cons y ys =>
    rcases List.mem_cons.mp hx with h | h
    · subst h
      exact foldl_min_le_init ys x
    · exact foldl_min_le_mem ys h y

/-- `listMax` bounds every member from above. -/
theorem le_listMax_of_mem {l : List ℚ} {x : ℚ} (hx : x ∈ l) :
    x ≤ listMax l := by
  cases l with
  | nil => cases hx
  | cons y ys =>
    rcases List.mem_cons.mp hx with h | h
    · subst h
      exact init_le_foldl_max ys x
    · exact mem_le_foldl_max ys h y

theorem foldl_min_const {c : ℚ} (xs : List ℚ) (a : ℚ)
    (hxs : ∀ y ∈ xs, y = c) (ha : a = c) : xs.foldl min a = c := by
  induction xs generalizing a with
  | nil => exact ha
  | cons x xs ih =>
    have hx : x = c := hxs x (List.mem_cons_self x xs)
    refine ih (min a x) (fun y hy => hxs y (List.mem_cons_of_mem x hy)) ?_
    rw [ha, hx, min_self]

theorem foldl_max_const {c : ℚ} (xs : List ℚ) (a : ℚ)
    (hxs : ∀ y ∈ xs, y = c) (ha : a = c) : xs.foldl max a = c := by
  induction xs generalizing a with
  | nil => exact ha
  | cons x xs ih =>
    have hx : x = c := hxs x (List.mem_cons_self x xs)
    refine ih (max a x) (fun y hy => hxs y (List.mem_cons_of_mem x hy)) ?_
    rw [ha, hx, max_self]

/-- On a constant list the minimum and the maximum coincide. -/
theorem listMin_eq_listMax_of_const {l : List ℚ} {c : ℚ}
    (h : ∀ y ∈ l, y = c) : listMin l = listMax l := by
  cases l with
  | nil => rfl
  | cons x xs =>
    have hx : x = c := h x (List.mem_cons_self x xs)
    have hxs : ∀ y ∈ xs, y = c := fun y hy => h y (List.mem_cons_of_mem x hy)
    rw [listMin, listMax, foldl_min_const xs x hxs hx,
      foldl_max_const xs x hxs hx]

/-! ### The best-window loop -/

theorem bestFold_zero (g : ℕ → ℚ) : bestFold g 0 = none := rfl

theorem bestFold_succ (g : ℕ → ℚ) (n : ℕ) :
    bestFold g (n + 1) = bestStep g (bestFold g n) n := by
  unfold bestFold
  rw [List.range_succ, List.foldl_append, List.foldl_cons, List.foldl_nil]

/-- The loop over a non-empty range produces a window. -/
theorem bestFold_isSome {g : ℕ → ℚ} {n : ℕ} (hn : 0 < n) :
    ∃ j s, bestFold g n = some (j, s) := by
  cases n with
  | zero => cases hn
  | succ m =>
    rw [bestFold_succ]
    cases hacc : bestFold g m with
    | none => exact ⟨m, g m, rfl⟩
    | some p =>
      obtain ⟨j, bs⟩ := p
      by_cases hlt : g m < bs
      · exact ⟨m, g m, by simp [bestStep, hlt]⟩
      · exact ⟨j, bs, by simp [bestStep, hlt]⟩

theorem bestFold_eq_none {g : ℕ → ℚ} {n : ℕ} (h : bestFold g n = none) :
    n = 0 := by
  by_contra hn
  obtain ⟨j, s, hs⟩ := bestFold_isSome (Nat.pos_of_ne_zero hn) (g := g)
  rw [h] at hs
  cases hs

theorem bestStep_none (g : ℕ → ℚ) (i : ℕ) :
    bestStep g none i = some (i, g i) := rfl

theorem bestStep_some (g : ℕ → ℚ) (j : ℕ) (bs : ℚ) (i : ℕ) :
    bestStep g (some (j, bs)) i =
      if g i < bs then some (i, g i) else some (j, bs) := rfl

/-- Soundness of the best-window loop: the returned index carries its own
score, lies in range, achieves the minimum score, and strictly improves
on every earlier index (so the first index wins ties). -/
theorem bestFold_spec {g : ℕ → ℚ} {n : ℕ} : ∀ {j : ℕ} {s : ℚ},
    bestFold g n = some (j, s) →
    s = g j ∧ j < n ∧ (∀ k, k < n → g j ≤ g k) ∧ (∀ k, k < j → g j < g k) := by
  induction n with
  | zero =>
    intro j s h
    cases h
  | succ m ih =>
    intro j s h
    rw [bestFold_succ] at h
    cases hacc : bestFold g m with
    | none =>
      have hm : m = 0 := bestFold_eq_none hacc
      rw [hacc, bestStep_none] at h
      injection h with h'
      cases h'
      subst hm
      refine ⟨rfl, Nat.lt_succ_self 0, ?_, ?_⟩
      · intro k hk
        have hk0 : k = 0 := Nat.lt_one_iff.mp hk
        subst hk0
        exact le_refl _
      · intro k hk
        cases hk
    | some p =>
      obtain ⟨j', bs⟩ := p
      obtain ⟨hbs, hjm, hmin, hfirst⟩ := ih hacc
      rw [hacc, bestStep_some] at h
      by_cases hlt : g m < bs
      · rw [if_pos hlt] at h
        injection h with h'
        cases h'
        refine ⟨rfl, Nat.lt_succ_self m, ?_, ?_⟩
        · intro k hk
          rcases Nat.lt_succ_iff_lt_or_eq.mp hk with hk' | hk'
          · exact le_of_lt (lt_of_lt_of_le (hbs ▸ hlt) (hmin k hk'))
          · subst hk'
            exact le_refl _
        · intro k hk
          exact lt_of_lt_of_le (hbs ▸ hlt) (hmin k hk)
      · rw [if_neg hlt] at h
        injection h with h'
        cases h'
        refine ⟨hbs, Nat.lt_succ_of_lt hjm, ?_, hfirst⟩
        intro k hk
        rcases Nat.lt_succ_iff_lt_or_eq.mp hk with hk' | hk'
        · exact hmin k hk'
        · subst hk'
          exact hbs ▸ not_lt.mp hlt

/-- `soc ≤ 85` puts the SoC factor at exactly 1. -/
theorem socFactor_eq_one_of_le {soc : ℚ} (h : soc ≤ 85) : socFactor soc = 1 := by
  unfold socFactor
  split
  · have heq : soc = 85 := le_antisymm h (by assumption)
    rw [heq]
    norm_num
  · rfl

/-- `basePower` never goes below its 1500 W clamp. -/
theorem basePower_ge_1500 (soc : ℚ) : 1500 ≤ basePower soc := by
  unfold basePower
  exact le_min (by norm_num) (le_max_left 1500 _)

/-! ### Claim theorems -/

/-- C8, counterexample: the source applies no clamp to `soc_factor`, so at
`soc = 100` (inside `[0,100]`) the factor is `-0.2`, violating the claimed
bound `soc_taper(soc) ∈ [0.2, 1.0]`. -/
theorem C8_taper_counterexample :
    (0 : ℚ) ≤ 100 ∧ (100 : ℚ) ≤ 100 ∧ socFactor 100 = -0.2 ∧
      socFactor 100 < 0.2 := by
  norm_num [socFactor]

/-- C8 (amended): for `soc ∈ [0,100]` the SoC factor equals 1 for
`soc ≤ 85` and follows the unclamped ramp `1 - 0.8*(soc-85)/10` for
`soc ≥ 85`; hence it is `0.2` at `soc = 95`, lies in `[-0.2, 1.0]`, and
drops strictly below `0.2` for `soc > 95` (no clamping in the source). -/
theorem C8_taper_unclamped (soc : ℚ) (h0 : 0 ≤ soc) (h1 : soc ≤ 100) :
    (soc ≤ 85 → socFactor soc = 1) ∧
      (85 ≤ soc → socFactor soc = 1 - 0.8 * (soc - 85) / 10) ∧
      socFactor 95 = 0.2 ∧
      -0.2 ≤ socFactor soc ∧ socFactor soc ≤ 1 ∧
      (95 < soc → socFactor soc < 0.2) := by
  by_cases h : 85 ≤ soc
  · refine ⟨fun h' => socFactor_eq_one_of_le h', fun _ => ?_, ?_, ?_, ?_, ?_⟩
    · unfold socFactor
      rw [if_pos h]
    · norm_num [socFactor]
    · unfold socFactor
      rw [if_pos h]
      linarith
    · unfold socFactor
      rw [if_pos h]
      linarith
    · intro h95
      unfold socFactor
      rw [if_pos h]
      linarith
  · have hle : soc ≤ 85 := le_of_not_le h
    refine ⟨fun _ => socFactor_eq_one_of_le hle, fun h' => absurd h' h, ?_, ?_, ?_, ?_⟩
    · norm_num [socFactor]
    · rw [socFactor_eq_one_of_le hle]
      norm_num
    · rw [socFactor_eq_one_of_le hle]
    · intro h95
      linarith

/-- C8 witness: the amended theorem instantiated at `soc = 90`. -/
theorem C8_taper_witness :
    ((90 : ℚ) ≤ 85 → socFactor 90 = 1) ∧
      ((85 : ℚ) ≤ 90 → socFactor 90 = 1 - 0.8 * (90 - 85) / 10) ∧
      socFactor 95 = 0.2 ∧
      -0.2 ≤ socFactor 90 ∧ socFactor 90 ≤ 1 ∧
      ((95 : ℚ) < 90 → socFactor 90 < 0.2) :=
  C8_taper_unclamped 90 (by norm_num) (by norm_num)

/-- C10: for a fixed non-negative base power and a fixed SoC factor the
shaped power `max(1000, int(base * socf * (0.7 + 0.3*(1 - pos))))` is
non-increasing in the relative position over `[0, 1]`, integer truncation
and the 1000 W floor included. -/
theorem C10_shaped_power_antitone (base : ℤ) (socf r1 r2 : ℚ)
    (hbase : 0 ≤ base) (h0 : 0 ≤ r1) (h12 : r1 ≤ r2) (h2 : r2 ≤ 1) :
    shapedPower base r2 socf ≤ shapedPower base r1 socf := by
  unfold shapedPower
  by_cases hs : 0 ≤ socf
  · refine max_le_max (le_refl 1000) (pyInt_mono ?_)
    have hc : (0 : ℚ) ≤ (base : ℚ) * socf :=
      mul_nonneg (by exact_mod_cast hbase) hs
    have hf : 0.7 + 0.3 * (1 - r2) ≤ 0.7 + 0.3 * (1 - r1) := by linarith
    exact mul_le_mul_of_nonneg_left hf hc
  · have hc : (base : ℚ) * socf ≤ 0 :=
      mul_nonpos_of_nonneg_of_nonpos (by exact_mod_cast hbase)
        (le_of_not_le hs)
    have hp1 : (base : ℚ) * socf * (0.7 + 0.3 * (1 - r1)) ≤ 0 :=
      mul_nonpos_of_nonpos_of_nonneg hc (by linarith)
    have hp2 : (base : ℚ) * socf * (0.7 + 0.3 * (1 - r2)) ≤ 0 :=
      mul_nonpos_of_nonpos_of_nonneg hc (by linarith)
    rw [max_eq_left (le_trans (pyInt_nonpos hp1) (by norm_num)),
      max_eq_left (le_trans (pyInt_nonpos hp2) (by norm_num))]

/-- C10 witness: the monotonicity theorem instantiated at
`base = 3000`, `socf = 3/5`, `r1 = 0`, `r2 = 1/2`. -/
theorem C10_shaped_power_witness :
    shapedPower 3000 (1/2) (3/5) ≤ shapedPower 3000 0 (3/5) :=
  C10_shaped_power_antitone 3000 (3/5) 0 (1/2) (by norm_num) (by norm_num)
    (by norm_num) (by norm_num)

/-- C7, counterexample: at `soc = 90`, `relative_position = 0` the
best-window branch commands `int(1500 * (0.7 + 0.3)) = 1500 W`, while
`price_shaped_power(base_power(90), 0, soc_taper(90))`
= `max(1000, int(1500 * 0.6 * 1.0)) = 1000 W`: the window branch omits
the SoC taper and the 1000 W floor. -/
theorem C7_window_power_counterexample :
    windowBranchPower 90 0 = 1500 ∧ opportunisticPower 90 0 = 1000 ∧
      windowBranchPower 90 0 ≠ opportunisticPower 90 0 := by
  norm_num [windowBranchPower, opportunisticPower, shapedPower, basePower,
    socFactor, pyInt_eq]

/-- C7 (amended): the best-window branch power
`int(base_power(soc) * (0.7 + 0.3*(1 - rel)))` carries no SoC taper and
no 1000 W floor; it agrees with the opportunistic-branch shaping
`price_shaped_power(base_power(soc), rel, soc_taper(soc))` exactly on the
no-taper regime `soc ≤ 85` (where the floor is also inactive). -/
theorem C7_window_power_no_taper (soc rel : ℚ) (hsoc : soc ≤ 85)
    (h0 : 0 ≤ rel) (h1 : rel ≤ 1) :
    windowBranchPower soc rel = opportunisticPower soc rel := by
  unfold opportunisticPower shapedPower windowBranchPower
  rw [socFactor_eq_one_of_le hsoc, mul_one]
  have hb : (1500 : ℚ) ≤ (basePower soc : ℚ) := by
    exact_mod_cast basePower_ge_1500 soc
  have hf : (0.7 : ℚ) ≤ 0.7 + 0.3 * (1 - rel) := by linarith
  have hprod : (1000 : ℚ) ≤ (basePower soc : ℚ) * (0.7 + 0.3 * (1 - rel)) := by
    nlinarith
  have hz : (1000 : ℤ) ≤
      pyInt ((basePower soc : ℚ) * (0.7 + 0.3 * (1 - rel))) := by
    refine le_pyInt (by linarith) ?_
    push_cast
    linarith
  rw [max_eq_right hz]

/-- C7 witness: the amended theorem instantiated at `soc = 50`,
`rel = 1/2`. -/
theorem C7_window_power_witness :
    windowBranchPower 50 (1/2) = opportunisticPower 50 (1/2) :=
  C7_window_power_no_taper 50 (1/2) (by norm_num) (by norm_num) (by norm_num)

/-- C9: on a flat price series (every `total` equal) the zero-range guard
makes every window's relative position and stability 0, every window
score 0, and the current-price position 0; all scoring functions are
total, so nothing divides by zero. -/
theorem C9_flat_series_safe (l : List PricePoint) (h i : ℕ) (q c : ℚ)
    (hc : ∀ p ∈ l, p.total = c) :
    windowPricePosition l h i = 0 ∧ windowPriceStability l h i = 0 ∧
      windowScore l h i = 0 ∧ currentPricePosition l q = 0 := by
  have hall : ∀ y ∈ l.map PricePoint.total, y = c := by
    intro y hy
    obtain ⟨p, hp, rfl⟩ := List.mem_map.mp hy
    exact hc p hp
  have hml : listMin (l.map PricePoint.total) = listMax (l.map PricePoint.total) :=
    listMin_eq_listMax_of_const hall
  have hrange : ¬ (0 < listMax (l.map PricePoint.total) -
      listMin (l.map PricePoint.total)) := by
    rw [hml, sub_self]
    exact lt_irrefl 0
  have hpos : windowPricePosition l h i = 0 := by
    unfold windowPricePosition
    rw [if_neg hrange]
  have hstab : windowPriceStability l h i = 0 := by
    unfold windowPriceStability
    rw [if_neg hrange]
  refine ⟨hpos, hstab, ?_, ?_⟩
  · unfold windowScore
    rw [hpos, hstab]
    norm_num
  · unfold currentPricePosition
    rw [if_neg hrange]

/-- C9 witness: the flat-series theorem instantiated on a concrete
two-point constant series. -/
theorem C9_flat_series_witness :
    windowPricePosition [⟨0, 2⟩, ⟨1, 2⟩] 1 0 = 0 ∧
      windowPriceStability [⟨0, 2⟩, ⟨1, 2⟩] 1 0 = 0 ∧
      windowScore [⟨0, 2⟩, ⟨1, 2⟩] 1 0 = 0 ∧
      currentPricePosition [⟨0, 2⟩, ⟨1, 2⟩] 7 = 0 :=
  C9_flat_series_safe [⟨0, 2⟩, ⟨1, 2⟩] 1 0 7 2 (by
    intro p hp
    rcases List.mem_cons.mp hp with h | h
    · rw [h]
    · rcases List.mem_cons.mp h with h' | h'
      · rw [h']
      · cases h')

/-- Unfolding of `optimize_charging` on a present battery status. -/
theorem optimize_charging_some (status : BatteryStatus) (car : Bool)
    (prices : List PricePoint) (now : ℚ) :
    optimize_charging (some status) car prices now =
      (if prices = [] then none
       else if car then some ⟨BatteryMode.PAUSE, 0⟩
       else
         match currentPriceData prices now with
         | some cp =>
           let pos := currentPricePosition prices cp.total
           if pos ≤ 0.2 ∧ status.state_of_charge < optimal_charge_level ∧
               car = false then
             some ⟨BatteryMode.FAST_CHARGE,
               opportunisticPower status.state_of_charge pos⟩
           else windowPhase status prices now
         | none => windowPhase status prices now) := rfl

/-- Unfolding of the window phase once a window has been found. -/
theorem windowPhase_eq_of_find (status : BatteryStatus)
    (prices : List PricePoint) (now : ℚ) (w : ChargingWindow)
    (h : find_best_charging_window prices 4 now = some w) :
    windowPhase status prices now =
      (if max_charge_level ≤ status.state_of_charge then
        some ⟨BatteryMode.NORMAL, 0⟩
      else if status.state_of_charge ≤ min_charge_level then
        some ⟨BatteryMode.FAST_CHARGE, 1500⟩
      else if w.start_time ≤ now ∧ now ≤ w.end_time ∧ w.score < 0.4 then
        some ⟨BatteryMode.FAST_CHARGE,
          windowBranchPower status.state_of_charge w.relative_position⟩
      else some ⟨BatteryMode.NORMAL, 0⟩) := by
  unfold windowPhase
  rw [h]

/-- Unfolding of `optimize_charging` when the car is idle, the series is
non-empty and a current-hour point exists. -/
theorem optimize_charging_current_some (status : BatteryStatus)
    (prices : List PricePoint) (now : ℚ) (p : PricePoint)
    (hne : prices ≠ []) (hcp : currentPriceData prices now = some p) :
    optimize_charging (some status) false prices now =
      (if currentPricePosition prices p.total ≤ 0.2 ∧
          status.state_of_charge < optimal_charge_level ∧
          (false : Bool) = false then
        some ⟨BatteryMode.FAST_CHARGE,
          opportunisticPower status.state_of_charge
            (currentPricePosition prices p.total)⟩
      else windowPhase status prices now) := by
  rw [optimize_charging_some, if_neg hne, if_neg Bool.false_ne_true, hcp]

/-- Unfolding of `optimize_charging` when the car is idle, the series is
non-empty and no current-hour point exists. -/
theorem optimize_charging_current_none (status : BatteryStatus)
    (prices : List PricePoint) (now : ℚ)
    (hne : prices ≠ []) (hcp : currentPriceData prices now = none) :
    optimize_charging (some status) false prices now =
      windowPhase status prices now := by
  rw [optimize_charging_some, if_neg hne, if_neg Bool.false_ne_true, hcp]

/-- When the SoC floor branch is reached with a window available, the
emergency 1500 W charge fires. -/
theorem windowPhase_floor (status : BatteryStatus) (prices : List PricePoint)
    (now : ℚ) (hlow : status.state_of_charge ≤ min_charge_level)
    (hnotfull : ¬ max_charge_level ≤ status.state_of_charge)
    (hwin : find_best_charging_window prices 4 now ≠ none) :
    windowPhase status prices now = some ⟨BatteryMode.FAST_CHARGE, 1500⟩ := by
  obtain ⟨w, hw⟩ := Option.ne_none_iff_exists'.mp hwin
  rw [windowPhase_eq_of_find status prices now w hw, if_neg hnotfull,
    if_pos hlow]

/-- C1, counterexample: with an empty price series the cycle aborts at the
missing-input check (line 674, before the car check at line 688), emitting
no decision at all — in particular not `PAUSE` — even though the car is
charging. -/
theorem C1_pause_counterexample :
    optimize_charging (some ⟨50⟩) true [] 0 = none ∧
      optimize_charging (some ⟨50⟩) true [] 0 ≠
        some ⟨BatteryMode.PAUSE, 0⟩ := by
  constructor <;> simp [optimize_charging]

/-- C1 (amended): with the battery status present and a non-empty price
series, `car_is_charging = true` yields `PAUSE` regardless of the state
of charge, the prices and the time; the override precedes every decision
branch except the missing-input guard. -/
theorem C1_pause_override (status : BatteryStatus) (prices : List PricePoint)
    (now : ℚ) (hne : prices ≠ []) :
    optimize_charging (some status) true prices now =
      some ⟨BatteryMode.PAUSE, 0⟩ := by
  simp [optimize_charging, hne]

/-- C1 witness: the override theorem instantiated at SoC 0 with a
one-point series. -/
theorem C1_pause_witness :
    optimize_charging (some ⟨0⟩) true [⟨1, 1⟩] 0 =
      some ⟨BatteryMode.PAUSE, 0⟩ :=
  C1_pause_override ⟨0⟩ [⟨1, 1⟩] 0 (List.cons_ne_nil _ _)

/-- C2, counterexample: a non-empty series whose single point is two hours
old gives no current-hour point and no 4-point future window, so the cycle
returns at the missing-window check (line 751) before ever reaching the
SoC floor check (line 766): at `soc = min_charge_level - 1 = 19` no
decision is emitted, not `CHARGE(1500)`. -/
theorem C2_floor_counterexample :
    min_charge_level - 1 = (19 : ℚ) ∧
      optimize_charging (some ⟨19⟩) false [⟨8, 3/10⟩] 10 = none := by
  constructor
  · norm_num [min_charge_level]
  · norm_num [optimize_charging, currentPriceData, List.find?, windowPhase,
      find_best_charging_window, futurePrices, List.filter]

/-- C2 (amended): with `soc = min_soc_pct - 1`, the car idle, a best
window found (at least 4 future points), and the current price (when the
current hour is covered) the strict maximum of a non-flat series, the
decision is `CHARGE` at the fixed 1500 W emergency setpoint.  (Without a
found window the cycle aborts with no decision, see the counterexample.) -/
theorem C2_floor_emergency_charge (status : BatteryStatus)
    (prices : List PricePoint) (now : ℚ)
    (hsoc : status.state_of_charge = min_charge_level - 1)
    (hwin : find_best_charging_window prices 4 now ≠ none)
    (hcur : ∀ p, currentPriceData prices now = some p →
      p.total = listMax (prices.map PricePoint.total))
    (hrange : 0 < listMax (prices.map PricePoint.total) -
      listMin (prices.map PricePoint.total)) :
    optimize_charging (some status) false prices now =
      some ⟨BatteryMode.FAST_CHARGE, 1500⟩ := by
  have hne : prices ≠ [] := by
    intro h
    apply hwin
    rw [h]
    rfl
  have hlow : status.state_of_charge ≤ min_charge_level := by
    rw [hsoc]
    norm_num [min_charge_level]
  have hnotfull : ¬ max_charge_level ≤ status.state_of_charge := by
    rw [hsoc]
    norm_num [min_charge_level, max_charge_level]
  have hphase := windowPhase_floor status prices now hlow hnotfull hwin
  cases hcp : currentPriceData prices now with
  | none => rw [optimize_charging_current_none status prices now hne hcp, hphase]
  | some p =>
    rw [optimize_charging_current_some status prices now p hne hcp]
    have hpos : currentPricePosition prices p.total = 1 := by
      unfold currentPricePosition
      rw [hcur p hcp, if_pos hrange, div_self (ne_of_gt hrange)]
    rw [if_neg ?_]
    · exact hphase
    · intro hand
      rw [hpos] at hand
      have h1 := hand.1
      norm_num at h1

/-- C2 witness: the emergency-floor theorem on a concrete series whose
current price is the maximum and which has four future points. -/
theorem C2_floor_witness :
    optimize_charging (some ⟨19⟩) false
      [⟨-1/2, 9/10⟩, ⟨1, 1/10⟩, ⟨2, 2/10⟩, ⟨3, 3/10⟩, ⟨4, 4/10⟩] 0 =
      some ⟨BatteryMode.FAST_CHARGE, 1500⟩ :=
  C2_floor_emergency_charge ⟨19⟩
    [⟨-1/2, 9/10⟩, ⟨1, 1/10⟩, ⟨2, 2/10⟩, ⟨3, 3/10⟩, ⟨4, 4/10⟩] 0
    (by norm_num [min_charge_level])
    (by
      norm_num [find_best_charging_window, futurePrices, List.filter,
        bestFold, bestStep, List.range, List.range.loop]
      exact ⟨List.cons_ne_nil _ _, by simp⟩)
    (by
      intro p hp
      norm_num [currentPriceData, List.find?] at hp
      subst hp
      norm_num [listMax, max_def])
    (by norm_num [listMax, listMin, max_def, min_def])

/-- C3, counterexample: a missing battery status, an empty price series,
and a non-empty series with no usable window all end the cycle with NO
emitted decision (the code path is `return` with no
`set_battery_mode(NORMAL)` call), contradicting the claimed `NORMAL`
fallback. -/
theorem C3_no_fallback_counterexample :
    optimize_charging none false [⟨0, 1⟩] 0 = none ∧
      optimize_charging (some ⟨50⟩) false [] 0 = none ∧
      optimize_charging (some ⟨50⟩) false [⟨-2, 1⟩] 0 = none ∧
      optimize_charging none false [⟨0, 1⟩] 0 ≠
        some ⟨BatteryMode.NORMAL, 0⟩ := by
  refine ⟨rfl, by simp [optimize_charging], ?_, by simp [optimize_charging]⟩
  norm_num [optimize_charging, currentPriceData, List.find?, windowPhase,
    find_best_charging_window, futurePrices, List.filter]

/-- C3 (amended): on missing input the engine emits no decision at all —
a null battery status or an empty price series aborts before any branch,
and when no window is found the window phase likewise ends the cycle
without a mode write.  `NORMAL` is never emitted as a fallback; the
battery simply keeps its previous mode. -/
theorem C3_no_decision_on_missing_input :
    (∀ car prices now, optimize_charging none car prices now = none) ∧
      (∀ status car now,
        optimize_charging (some status) car [] now = none) ∧
      (∀ status prices now, find_best_charging_window prices 4 now = none →
        windowPhase status prices now = none) := by
  refine ⟨fun car prices now => rfl,
    fun status car now => by simp [optimize_charging], ?_⟩
  intro status prices now h
  unfold windowPhase
  rw [h]

/-- C3 witness: the no-decision theorem applied to a series whose only
point is stale. -/
theorem C3_no_decision_witness :
    windowPhase ⟨50⟩ [⟨-2, 1⟩] 0 = none :=
  C3_no_decision_on_missing_input.2.2 ⟨50⟩ [⟨-2, 1⟩] 0
    (by norm_num [find_best_charging_window, futurePrices, List.filter])

/-- C5, counterexample: the point covering the currently running hour
(`startsAt = 0 ≤ now = 1/2 < 1 = startsAt + 1h`) satisfies the claimed
filter `startsAt + 1h > now` but is NOT retained: the source filters with
`startsAt > now`. -/
theorem C5_future_filter_counterexample :
    (0 : ℚ) + 1 > 1/2 ∧ (⟨0, 1⟩ : PricePoint) ∈ [(⟨0, 1⟩ : PricePoint)] ∧
      (⟨0, 1⟩ : PricePoint) ∉ futurePrices [⟨0, 1⟩] (1/2) := by
  refine ⟨by norm_num, List.mem_singleton_self _, ?_⟩
  norm_num [futurePrices, List.filter]

/-- C5 (amended): the future filter retains exactly the points with
`startsAt > now` (strict, with no one-hour grace), so the point covering
the currently running hour is excluded from the future subset. -/
theorem C5_future_filter_strict (prices : List PricePoint) (now : ℚ)
    (p : PricePoint) :
    p ∈ futurePrices prices now ↔ p ∈ prices ∧ now < p.startsAt := by
  unfold futurePrices
  simp [List.mem_filter]

/-! ### Window-search helpers shared by C4 and C6 -/

/-- Zeta-reduced unfolding of `find_best_charging_window`. -/
theorem find_best_charging_window_eq (prices : List PricePoint) (h : ℕ)
    (now : ℚ) :
    find_best_charging_window prices h now =
      (if prices = [] then none
       else if (futurePrices prices now).length < h then none
       else
         match bestFold (windowScore (futurePrices prices now) h)
             ((futurePrices prices now).length - h + 1) with
         | some (i, _) => some (mkWindow (futurePrices prices now) h i)
         | none => none) := rfl

/-- Membership in the future subset: kept iff in the series and strictly
later than `now`. -/
theorem mem_futurePrices {prices : List PricePoint} {now : ℚ}
    {p : PricePoint} :
    p ∈ futurePrices prices now ↔ p ∈ prices ∧ now < p.startsAt := by
  unfold futurePrices
  simp [List.mem_filter]

theorem headI_mem {α : Type} [Inhabited α] {l : List α} (h : l ≠ []) :
    l.headI ∈ l := by
  cases l with
  | nil => exact absurd rfl h
  | cons a t => exact List.mem_cons_self a t

theorem windowSlice_length {l : List PricePoint} {h i : ℕ}
    (hih : i + h ≤ l.length) : (windowSlice l h i).length = h := by
  unfold windowSlice
  rw [List.length_take, List.length_drop]
  omega

theorem windowSlice_subset (l : List PricePoint) (h i : ℕ) :
    windowSlice l h i ⊆ l :=
  ((List.take_sublist h (l.drop i)).trans (List.drop_sublist i l)).subset

/-- Inversion of a successful window search: it came from the best-scoring
index of the loop over the future subset. -/
theorem find_best_charging_window_some {prices : List PricePoint} {now : ℚ}
    {h : ℕ} {w : ChargingWindow}
    (hw : find_best_charging_window prices h now = some w) :
    ∃ i s,
      bestFold (windowScore (futurePrices prices now) h)
          ((futurePrices prices now).length - h + 1) = some (i, s) ∧
        w = mkWindow (futurePrices prices now) h i ∧
        h ≤ (futurePrices prices now).length := by
  rw [find_best_charging_window_eq] at hw
  by_cases hnil : prices = []
  · rw [if_pos hnil] at hw
    cases hw
  · rw [if_neg hnil] at hw
    by_cases hlen : (futurePrices prices now).length < h
    · rw [if_pos hlen] at hw
      cases hw
    · rw [if_neg hlen] at hw
      cases hbf : bestFold (windowScore (futurePrices prices now) h)
          ((futurePrices prices now).length - h + 1) with
      | none =>
        rw [hbf] at hw
        cases hw
      | some p =>
        obtain ⟨i, s⟩ := p
        rw [hbf] at hw
        injection hw with hw'
        exact ⟨i, s, rfl, hw'.symm, le_of_not_lt hlen⟩

/-- Any window the search returns starts strictly after `now`: its first
point survived the `startsAt > now` filter. -/
theorem find_window_start_gt {prices : List PricePoint} {now : ℚ} {h : ℕ}
    (hpos : 1 ≤ h) {w : ChargingWindow}
    (hw : find_best_charging_window prices h now = some w) :
    now < w.start_time := by
  obtain ⟨i, s, hbf, hw', hlen⟩ := find_best_charging_window_some hw
  obtain ⟨_, hin, _, _⟩ := bestFold_spec hbf
  have hih : i + h ≤ (futurePrices prices now).length := by omega
  have hne : windowSlice (futurePrices prices now) h i ≠ [] := by
    intro hnil
    have := windowSlice_length hih
    rw [hnil] at this
    simp at this
    omega
  have hmem : (windowSlice (futurePrices prices now) h i).headI ∈
      futurePrices prices now :=
    windowSlice_subset (futurePrices prices now) h i (headI_mem hne)
  have hgt := (mem_futurePrices.mp hmem).2
  rw [hw']
  exact hgt

/-- C4: `find_best_charging_window` returns `none` exactly when fewer than
`hours_needed` future points remain, and otherwise deterministically
returns the window built from the future subset at the unique
least-scoring index (earliest index on ties), the slice having exactly
`hours_needed` consecutive future points and the score being
`0.6*position + 0.4*stability` with min/max over the future subset only
(that is how `windowScore` is defined over `futurePrices`). -/
theorem C4_find_best_window_spec (prices : List PricePoint) (now : ℚ)
    (hours_needed : ℕ) (hpos : 1 ≤ hours_needed) :
    (find_best_charging_window prices hours_needed now = none ↔
      (futurePrices prices now).length < hours_needed) ∧
    (∀ w, find_best_charging_window prices hours_needed now = some w →
      ∃ i, i + hours_needed ≤ (futurePrices prices now).length ∧
        w = mkWindow (futurePrices prices now) hours_needed i ∧
        w.prices = windowSlice (futurePrices prices now) hours_needed i ∧
        w.prices.length = hours_needed ∧
        (∀ j, j + hours_needed ≤ (futurePrices prices now).length →
          windowScore (futurePrices prices now) hours_needed i ≤
            windowScore (futurePrices prices now) hours_needed j) ∧
        (∀ j, j + hours_needed ≤ (futurePrices prices now).length →
          windowScore (futurePrices prices now) hours_needed j ≤
            windowScore (futurePrices prices now) hours_needed i →
          i ≤ j)) := by
  constructor
  · constructor
    · intro hnone
      by_contra hlen
      have hlen' : hours_needed ≤ (futurePrices prices now).length :=
        le_of_not_lt hlen
      have hnil : prices ≠ [] := by
        intro hnil
        rw [hnil] at hlen'
        have : (futurePrices ([] : List PricePoint) now).length = 0 := rfl
        omega
      obtain ⟨j, s, hbf⟩ := bestFold_isSome
        (n := (futurePrices prices now).length - hours_needed + 1)
        (g := windowScore (futurePrices prices now) hours_needed)
        (by omega)
      rw [find_best_charging_window_eq, if_neg hnil, if_neg hlen, hbf]
        at hnone
      cases hnone
    · intro hlen
      by_cases hnil : prices = []
      · rw [find_best_charging_window_eq, if_pos hnil]
      · rw [find_best_charging_window_eq, if_neg hnil, if_pos hlen]
  · intro w hw
    obtain ⟨i, s, hbf, hw', hlen⟩ := find_best_charging_window_some hw
    obtain ⟨_, hin, hmin, hfirst⟩ := bestFold_spec hbf
    have hih : i + hours_needed ≤ (futurePrices prices now).length := by
      omega
    refine ⟨i, hih, hw', by rw [hw']; rfl, ?_, ?_, ?_⟩
    · rw [hw']
      exact windowSlice_length hih
    · intro j hj
      exact hmin j (by omega)
    · intro j hj hle
      by_contra hij
      have hji : j < i := by omega
      exact absurd hle (not_le.mpr (hfirst j hji))

/-- C4 witness: the specification applied to a one-point series with
`hours_needed = 1` at `now = 0`. -/
theorem C4_find_best_window_witness :
    (find_best_charging_window [⟨1, 1⟩] 1 0 = none ↔
      (futurePrices [⟨1, 1⟩] 0).length < 1) ∧
    (∀ w, find_best_charging_window [⟨1, 1⟩] 1 0 = some w →
      ∃ i, i + 1 ≤ (futurePrices [⟨1, 1⟩] 0).length ∧
        w = mkWindow (futurePrices [⟨1, 1⟩] 0) 1 i ∧
        w.prices = windowSlice (futurePrices [⟨1, 1⟩] 0) 1 i ∧
        w.prices.length = 1 ∧
        (∀ j, j + 1 ≤ (futurePrices [⟨1, 1⟩] 0).length →
          windowScore (futurePrices [⟨1, 1⟩] 0) 1 i ≤
            windowScore (futurePrices [⟨1, 1⟩] 0) 1 j) ∧
        (∀ j, j + 1 ≤ (futurePrices [⟨1, 1⟩] 0).length →
          windowScore (futurePrices [⟨1, 1⟩] 0) 1 j ≤
            windowScore (futurePrices [⟨1, 1⟩] 0) 1 i →
          i ≤ j)) :=
  C4_find_best_window_spec [⟨1, 1⟩] 0 1 (le_refl 1)

/-! ### C6: the in-window branch is dead code -/

theorem optimize_noWB_some (status : BatteryStatus) (car : Bool)
    (prices : List PricePoint) (now : ℚ) :
    optimize_charging_noWindowBranch (some status) car prices now =
      (if prices = [] then none
       else if car then some ⟨BatteryMode.PAUSE, 0⟩
       else
         match currentPriceData prices now with
         | some cp =>
           let pos := currentPricePosition prices cp.total
           if pos ≤ 0.2 ∧ status.state_of_charge < optimal_charge_level ∧
               car = false then
             some ⟨BatteryMode.FAST_CHARGE,
               opportunisticPower status.state_of_charge pos⟩
           else windowPhaseNoBranch status prices now
         | none => windowPhaseNoBranch status prices now) := rfl

theorem windowPhaseNoBranch_eq_of_find (status : BatteryStatus)
    (prices : List PricePoint) (now : ℚ) (w : ChargingWindow)
    (h : find_best_charging_window prices 4 now = some w) :
    windowPhaseNoBranch status prices now =
      (if max_charge_level ≤ status.state_of_charge then
        some ⟨BatteryMode.NORMAL, 0⟩
      else if status.state_of_charge ≤ min_charge_level then
        some ⟨BatteryMode.FAST_CHARGE, 1500⟩
      else some ⟨BatteryMode.NORMAL, 0⟩) := by
  unfold windowPhaseNoBranch
  rw [h]

/-- With every returned window starting strictly after `now`, the
in-window condition `start_time <= now <= end_time` can never hold, and
the two window phases agree. -/
theorem windowPhase_eq_noBranch (status : BatteryStatus)
    (prices : List PricePoint) (now : ℚ) :
    windowPhase status prices now = windowPhaseNoBranch status prices now := by
  cases hfind : find_best_charging_window prices 4 now with
  | none =>
    unfold windowPhase windowPhaseNoBranch
    rw [hfind]
  | some w =>
    have hgt := find_window_start_gt (by norm_num) hfind
    have hcond : ¬ (w.start_time ≤ now ∧ now ≤ w.end_time ∧
        w.score < 0.4) := by
      intro hand
      exact absurd hgt (not_lt.mpr hand.1)
    rw [windowPhase_eq_of_find status prices now w hfind,
      windowPhaseNoBranch_eq_of_find status prices now w hfind,
      if_neg hcond]

/-- C6: the best-window charging branch of `optimize_charging` never
fires — every window returned by `find_best_charging_window` starts
strictly after `now` (its points passed the `startsAt > now` filter), so
`start_time <= now` fails and the engine behaves identically with the
branch deleted, always falling through to `NORMAL` or the SoC
overrides. -/
theorem C6_window_branch_dead (battery : Option BatteryStatus) (car : Bool)
    (prices : List PricePoint) (now : ℚ) :
    optimize_charging battery car prices now =
      optimize_charging_noWindowBranch battery car prices now := by
  cases battery with
  | none => rfl
  | some status =>
    have hwp := windowPhase_eq_noBranch status prices now
    by_cases hnil : prices = []
    · rw [optimize_charging_some, optimize_noWB_some, if_pos hnil,
        if_pos hnil]
    · cases car with
      | true =>
        rw [optimize_charging_some, optimize_noWB_some, if_neg hnil,
          if_neg hnil, if_pos rfl, if_pos rfl]
      | false =>
        cases hcp : currentPriceData prices now with
        | none =>
          rw [optimize_charging_current_none status prices now hnil hcp,
            optimize_noWB_some, if_neg hnil,
            if_neg Bool.false_ne_true, hcp, hwp]
        | some p =>
          rw [optimize_charging_current_some status prices now p hnil hcp,
            optimize_noWB_some, if_neg hnil,
            if_neg Bool.false_ne_true, hcp, hwp]

end SmaByd
